import Mathlib

/-!
A Lean model of the `namedrouter` Go package (gin-named-router): a registry
mapping route names to gin route templates, with reverse URL construction.

Modelling conventions, from the Go source `named_routes.go`:
* A Go `map[string]string` is modelled as an association list (`Params`)
  whose operations follow Go map semantics: `getParam` is `v, ok := m[k]`,
  `insertParam` is `m[k] = v` (overwrite on an existing key), `deleteParam`
  is `delete(m, k)`.  The `range` over a nonempty map in `Path` returns on
  the first key; in the list model this is the head entry.
* `strings.Split(nr.route, "/")` is modelled by `splitSlash` on the
  character list of the route string (the separator is the single ASCII
  character so byte-wise and character-wise splitting coincide).
* `Path` mutates the parameter map of its receiver (`delete`), because Go
  maps are reference values shared between the copied receiver and the
  caller's handle.  `pathFull` therefore returns both the `(string, error)`
  result and the final state of the parameter map; `NamedRoute.Path`
  projects out the result, and `pathTwice` chains the map state between two
  consecutive calls on the same handle.  `ParamHeap`/`NamedRouteRef` model
  the map reference explicitly for claims about aliasing of `With`.
* The wrapped `gin.Engine` / `gin.RouterGroup` are external collaborators:
  only the name registry and the group base paths are modelled.
-/

namespace NamedRouterModel

/-- Association-list model of a Go `map[string]string`. -/
abbrev Params := List (String × String)

/-- Go map read `value, exists := m[k]`. -/
def getParam : Params → String → Option String
  | [], _ => none
  | (k, v) :: rest, key => if k = key then some v else getParam rest key

/-- Go `delete(m, k)`: removes the entry for the key. -/
def deleteParam : Params → String → Params
  | [], _ => []
  | (k, v) :: rest, key =>
    if k = key then deleteParam rest key else (k, v) :: deleteParam rest key

/-- Go map assignment `m[k] = v`: overwrites an existing entry, else adds one. -/
def insertParam : Params → String → String → Params
  | [], key, val => [(key, val)]
  | (k, v) :: rest, key, val =>
    if k = key then (key, val) :: rest else (k, v) :: insertParam rest key val

/-- The three data-carrying error types of the package. -/
inductive PathError where
  | noRouteDefined (name : String)
  | routeParameterNotSet (param : String)
  | unknownRouteParameter (param : String)
deriving DecidableEq

/-- `strings.Split(s, "/")` on the character list of `s`. -/
def splitSlash : List Char → List String
  | [] => [""]
  | c :: rest =>
    if c = '/' then "" :: splitSlash rest
    else
      match splitSlash rest with
      | [] => [String.mk [c]]
      | s :: ss => String.mk (c :: s.data) :: ss

/-- Joining parts back with the separator: inverse of `splitSlash`. -/
def joinSlash : List String → String
  | [] => ""
  | [s] => s
  | s :: t :: rest => s ++ "/" ++ joinSlash (t :: rest)

/-- The test `part[0:1] == ":" || part[0:1] == "*"` of the `Path` loop.
The Go test reads the first byte; for the ASCII characters `:` and `*` this
coincides with the first character. -/
def partIsParam (part : String) : Bool :=
  match part.data with
  | [] => false
  | c :: _ => c = ':' || c = '*'

/-- `part[1:]`: the parameter name of a placeholder segment. -/
def paramOf (part : String) : String :=
  String.mk part.data.tail

/-- The parameter names of the placeholder segments of a split template,
in template order, with multiplicity. -/
def placeholders : List String → List String
  | [] => []
  | p :: rest =>
    if partIsParam p then paramOf p :: placeholders rest else placeholders rest

/-- The keys of `ps` that are not in `ks`: the entries of the parameter map
left after the `Path` loop deletes every consumed placeholder name. -/
def dropKeys : Params → List String → Params
  | [], _ => []
  | (k, v) :: rest, ks =>
    if k ∈ ks then dropKeys rest ks else (k, v) :: dropKeys rest ks

/-- Substitution of one segment, without consuming the binding: a
placeholder segment becomes its bound value, a literal stays itself. -/
def substPart (ps : Params) (p : String) : String :=
  if partIsParam p then (getParam ps (paramOf p)).getD "" else p

/-- The string the `Path` loop builds after the initial slash, when no
lookup fails: segment-wise substitution with the Go joining discipline
(empty segments skipped, a separator after every non-final segment). -/
def substLoop (ps : Params) : List String → String
  | [] => ""
  | p :: rest =>
    if p = "" then substLoop ps rest
    else substPart ps p ++ (if rest = [] then "" else "/") ++ substLoop ps rest

/-- The loop of `NamedRoute.Path` over the split route.  Returns what the
loop appends to the string builder (or the first error) together with the
final state of the parameter map (the loop deletes consumed bindings, and
those deletions survive an early error return). -/
def renderLoop : Params → List String → Except PathError String × Params
  | ps, [] => (Except.ok "", ps)
  | ps, part :: rest =>
    if part = "" then renderLoop ps rest
    else
      let sep := if rest = [] then "" else "/"
      if partIsParam part then
        match getParam ps (paramOf part) with
        | none => (Except.error (PathError.routeParameterNotSet (paramOf part)), ps)
        | some v =>
          let r := renderLoop (deleteParam ps (paramOf part)) rest
          (r.1.map (fun s => v ++ sep ++ s), r.2)
      else
        let r := renderLoop ps rest
        (r.1.map (fun s => part ++ sep ++ s), r.2)

/-- `NamedRoute.Path` as a function of the handle's fields, returning the
`(string, error)` pair and the final parameter map. -/
def pathFull (name route : String) (ps : Params) :
    (String × Option PathError) × Params :=
  if route = "" then (("", some (PathError.noRouteDefined name)), ps)
  else
    match renderLoop ps (splitSlash route.data) with
    | (Except.error e, qs) => (("", some e), qs)
    | (Except.ok s, qs) =>
      match qs with
      | (k, _) :: _ => (("", some (PathError.unknownRouteParameter k)), qs)
      | [] => (("/" ++ s, none), qs)

/-- `NamedRoute`: a named route handle with the snapshot of its parameter
map's contents. -/
structure NamedRoute where
  name : String
  route : String
  parameters : Params
deriving DecidableEq

/-- `NamedRoute.Path()`: the `(string, error)` result of one call. -/
def NamedRoute.Path (nr : NamedRoute) : String × Option PathError :=
  (pathFull nr.name nr.route nr.parameters).1

/-- Two consecutive `Path()` calls on one unmodified handle.  The receiver
is copied by value but the parameter map is a shared reference, so the
second call starts from the map state the first call left behind. -/
def pathTwice (nr : NamedRoute) :
    (String × Option PathError) × (String × Option PathError) :=
  let r1 := pathFull nr.name nr.route nr.parameters
  let r2 := pathFull nr.name nr.route r1.2
  (r1.1, r2.1)

/-- `NamedRouter`: the engine wrapper; only the shared name registry is
modelled, the wrapped `gin.Engine` being an external collaborator. -/
structure NamedRouter where
  names : Params
deriving DecidableEq

/-- `New(engine)`: fresh router with an empty registry. -/
def New : NamedRouter := { names := [] }

/-- `NamedRouter.Reverse(name)`: a total lookup; a missing name yields the
zero value `""` of the Go map read, and a fresh empty parameter map. -/
def NamedRouter.Reverse (nr : NamedRouter) (name : String) : NamedRoute :=
  { name := name, route := (getParam nr.names name).getD "", parameters := [] }

/-- `NamedRouter.Get(name, relativePath, ...)`: registers the name.  The
forwarding to `gin.Engine.GET` is external; the model returns the updated
router state. -/
def NamedRouter.Get (nr : NamedRouter) (name relativePath : String) : NamedRouter :=
  { names := insertParam nr.names name relativePath }

/-- `NamedRouter.Post` and the other five method registrations update the
registry exactly as `Get` does. -/
def NamedRouter.Post (nr : NamedRouter) (name relativePath : String) : NamedRouter :=
  { names := insertParam nr.names name relativePath }

/-- `NamedGroup`: only the accumulated `basePath` is modelled; the wrapped
`gin.RouterGroup` is external and the `namedRouter` pointer is modelled by
passing the router state to registration calls explicitly. -/
structure NamedGroup where
  basePath : String
deriving DecidableEq

/-- `NamedRouter.NamedGroup(path, ...)`: root group with `basePath = path`. -/
def NamedRouter.NamedGroup (_ : NamedRouter) (path : String) : NamedGroup :=
  { basePath := path }

/-- `NamedGroup.NamedGroup(path, ...)` (named `NamedGroupNested` here
because the Go method shares its name with its receiver type): nested group
with `basePath = ng.basePath + "/" + path`. -/
def NamedGroup.NamedGroupNested (ng : NamedGroup) (path : String) : NamedGroup :=
  { basePath := ng.basePath ++ "/" ++ path }

/-- `NamedGroup.Get(name, relativePath, ...)`: stores
`ng.basePath + relativePath` under `name` in the router's shared registry. -/
def NamedGroup.Get (ng : NamedGroup) (nr : NamedRouter) (name relativePath : String) :
    NamedRouter :=
  { names := insertParam nr.names name (ng.basePath ++ relativePath) }

/-- `NamedGroup.Post` and the other five method registrations store the
same prefixed template. -/
def NamedGroup.Post (ng : NamedGroup) (nr : NamedRouter) (name relativePath : String) :
    NamedRouter :=
  { names := insertParam nr.names name (ng.basePath ++ relativePath) }

/-- Iterated nested group construction from a starting group. -/
def nestGroups (g : NamedGroup) : List String → NamedGroup
  | [] => g
  | p :: rest => nestGroups (g.NamedGroupNested p) rest

/-- The first placeholder name of the split template that has no binding in
`ps` (template order). -/
def firstUnbound (parts : List String) (ps : Params) : Option String :=
  (placeholders parts).find? (fun n => (getParam ps n).isNone)

/-- A heap of Go map values, for modelling the map field of `NamedRoute` as
the reference value it is in Go. -/
def listRead : List Params → Nat → Params
  | [], _ => []
  | ps :: _, 0 => ps
  | _ :: rest, n + 1 => listRead rest n

/-- Writing one cell of the heap. -/
def listWrite : List Params → Nat → Params → List Params
  | [], _, _ => []
  | _ :: rest, 0, ps => ps :: rest
  | c :: rest, n + 1, ps => c :: listWrite rest n ps

/-- The heap of parameter maps. -/
structure ParamHeap where
  cells : List Params
deriving DecidableEq

/-- Dereferencing a map reference. -/
def ParamHeap.read (h : ParamHeap) (r : Nat) : Params :=
  listRead h.cells r

/-- Updating the map a reference points to. -/
def ParamHeap.write (h : ParamHeap) (r : Nat) (ps : Params) : ParamHeap :=
  { cells := listWrite h.cells r ps }

/-- `NamedRoute` with its `parameters` field modelled as what it is in Go:
a reference to a map value in the heap. -/
structure NamedRouteRef where
  name : String
  route : String
  parameters : Nat
deriving DecidableEq

/-- `NamedRoute.With(key, value)`: the receiver is copied by value, the map
assignment goes through the shared reference, and the copy (holding the
same reference) is returned. -/
def NamedRouteRef.With (h : ParamHeap) (nr : NamedRouteRef) (key value : String) :
    ParamHeap × NamedRouteRef :=
  (h.write nr.parameters (insertParam (h.read nr.parameters) key value), nr)

example : NamedRoute.Path ⟨"root", "/", []⟩ = ("/", none) := by decide

example : NamedRoute.Path ⟨"about", "/about/us", []⟩ = ("/about/us", none) := by decide

example : NamedRoute.Path ⟨"user", "/user/:id", [("id", "3")]⟩ = ("/user/3", none) := by decide

example : NamedRoute.Path ⟨"user-item", "/user/:id/item/:item", [("id", "3"), ("item", "book")]⟩ =
    ("/user/3/item/book", none) := by decide

example : NamedRoute.Path ⟨"item-splat", "/item/*splat", [("splat", "records/7")]⟩ =
    ("/item/records/7", none) := by decide

example : NamedRoute.Path ⟨"unknown", "", []⟩ =
    ("", some (PathError.noRouteDefined "unknown")) := by decide

example : NamedRoute.Path ⟨"user", "/user/:id", []⟩ =
    ("", some (PathError.routeParameterNotSet "id")) := by decide

example : NamedRoute.Path ⟨"user", "/user/:id", [("id", "3"), ("item", "3")]⟩ =
    ("", some (PathError.unknownRouteParameter "item")) := by decide

/-! Basic lemmas about the association-list model of Go maps. -/

theorem getParam_deleteParam_ne (ps : Params) (k n : String) (h : n ≠ k) :
    getParam (deleteParam ps k) n = getParam ps n := by
  induction ps with
  | nil => rfl
  | cons e rest ih =>
    obtain ⟨k', v⟩ := e
    by_cases hk : k' = k
    · subst hk
      have hne : ¬ k' = n := fun he => h he.symm
      simp [deleteParam, getParam, hne, ih]
    · simp [deleteParam, hk, getParam, ih]

theorem getParam_deleteParam_self (ps : Params) (k : String) :
    getParam (deleteParam ps k) k = none := by
  induction ps with
  | nil => rfl
  | cons e rest ih =>
    obtain ⟨k', v⟩ := e
    by_cases hk : k' = k
    · simp only [deleteParam, if_pos hk, ih]
    · simp only [deleteParam, if_neg hk, getParam, if_neg hk, ih]

theorem getParam_isSome_iff_mem (ps : Params) (k : String) :
    (getParam ps k).isSome ↔ k ∈ ps.map Prod.fst := by
  induction ps with
  | nil => simp [getParam]
  | cons e rest ih =>
    obtain ⟨k', v⟩ := e
    by_cases hk : k' = k
    · subst hk
      simp [getParam]
    · simp [getParam, if_neg hk, ih, hk, Ne.symm hk]

theorem getParam_insertParam_self (ps : Params) (k v : String) :
    getParam (insertParam ps k v) k = some v := by
  induction ps with
  | nil => simp [insertParam, getParam]
  | cons e rest ih =>
    obtain ⟨k', v'⟩ := e
    by_cases hk : k' = k
    · simp [insertParam, if_pos hk, getParam]
    · simp [insertParam, if_neg hk, getParam, if_neg hk, ih]

theorem dropKeys_nil_keys (ps : Params) : dropKeys ps [] = ps := by
  induction ps with
  | nil => rfl
  | cons e rest ih =>
    obtain ⟨k, v⟩ := e
    simp [dropKeys, ih]

theorem dropKeys_deleteParam (ps : Params) (n : String) (ks : List String) :
    dropKeys (deleteParam ps n) ks = dropKeys ps (n :: ks) := by
  induction ps with
  | nil => rfl
  | cons e rest ih =>
    obtain ⟨k, v⟩ := e
    by_cases hk : k = n
    · subst hk
      simp [deleteParam, dropKeys, ih]
    · by_cases hks : k ∈ ks
      · simp [deleteParam, dropKeys, hk, hks, ih]
      · simp [deleteParam, dropKeys, hk, hks, ih]

theorem dropKeys_eq_nil (ps : Params) (ks : List String)
    (h : ∀ k ∈ ps.map Prod.fst, k ∈ ks) : dropKeys ps ks = [] := by
  induction ps with
  | nil => rfl
  | cons e rest ih =>
    obtain ⟨k, v⟩ := e
    have hk : k ∈ ks := h k (by simp)
    simp only [dropKeys, if_pos hk]
    exact ih (fun k' hk' => h k' (by simp [hk']))

theorem mem_dropKeys (ps : Params) (ks : List String) (e : String × String)
    (h : e ∈ dropKeys ps ks) : e ∈ ps ∧ e.1 ∉ ks := by
  induction ps with
  | nil => simp [dropKeys] at h
  | cons f rest ih =>
    obtain ⟨k, v⟩ := f
    by_cases hk : k ∈ ks
    · simp only [dropKeys, if_pos hk] at h
      obtain ⟨h1, h2⟩ := ih h
      exact ⟨List.mem_cons_of_mem _ h1, h2⟩
    · simp only [dropKeys, if_neg hk] at h
      rcases List.mem_cons.mp h with h | h
      · subst h
        exact ⟨List.mem_cons_self _ _, hk⟩
      · obtain ⟨h1, h2⟩ := ih h
        exact ⟨List.mem_cons_of_mem _ h1, h2⟩

theorem dropKeys_ne_nil (ps : Params) (ks : List String) (k : String)
    (hk : k ∈ ps.map Prod.fst) (hnot : k ∉ ks) : dropKeys ps ks ≠ [] := by
  induction ps with
  | nil => simp at hk
  | cons e rest ih =>
    obtain ⟨k', v⟩ := e
    by_cases hks : k' ∈ ks
    · have hne : k ≠ k' := fun h => hnot (h ▸ hks)
      have hk' : k ∈ rest.map Prod.fst := by
        rcases List.mem_cons.mp hk with h | h
        · exact absurd h hne
        · exact h
      simp only [dropKeys, if_pos hks]
      exact ih hk'
    · simp [dropKeys, if_neg hks]

/-! Unfolding lemmas for the segment walk. -/

theorem partIsParam_empty : partIsParam "" = false := rfl

theorem placeholders_cons_param (p : String) (rest : List String)
    (hp : partIsParam p = true) :
    placeholders (p :: rest) = paramOf p :: placeholders rest := by
  simp [placeholders, hp]

theorem placeholders_cons_lit (p : String) (rest : List String)
    (hp : partIsParam p = false) :
    placeholders (p :: rest) = placeholders rest := by
  simp [placeholders, hp]

theorem renderLoop_cons_empty (ps : Params) (rest : List String) :
    renderLoop ps ("" :: rest) = renderLoop ps rest := by
  simp [renderLoop]

theorem renderLoop_cons_param_missing (ps : Params) (p : String) (rest : List String)
    (hp : p ≠ "") (hpar : partIsParam p = true)
    (hv : getParam ps (paramOf p) = none) :
    renderLoop ps (p :: rest) =
      (Except.error (PathError.routeParameterNotSet (paramOf p)), ps) := by
  simp [renderLoop, hp, hpar, hv]

theorem renderLoop_cons_param (ps : Params) (p : String) (rest : List String)
    (hp : p ≠ "") (hpar : partIsParam p = true) (v : String)
    (hv : getParam ps (paramOf p) = some v) :
    renderLoop ps (p :: rest) =
      ((renderLoop (deleteParam ps (paramOf p)) rest).1.map
        (fun s => v ++ (if rest = [] then "" else "/") ++ s),
       (renderLoop (deleteParam ps (paramOf p)) rest).2) := by
  simp [renderLoop, hp, hpar, hv]

theorem renderLoop_cons_lit (ps : Params) (p : String) (rest : List String)
    (hp : p ≠ "") (hpar : partIsParam p = false) :
    renderLoop ps (p :: rest) =
      ((renderLoop ps rest).1.map (fun s => p ++ (if rest = [] then "" else "/") ++ s),
       (renderLoop ps rest).2) := by
  simp [renderLoop, hp, hpar]

theorem substLoop_cons_empty (ps : Params) (rest : List String) :
    substLoop ps ("" :: rest) = substLoop ps rest := by
  simp [substLoop]

theorem substLoop_cons (ps : Params) (p : String) (rest : List String) (hp : p ≠ "") :
    substLoop ps (p :: rest) =
      substPart ps p ++ (if rest = [] then "" else "/") ++ substLoop ps rest := by
  simp [substLoop, hp]

theorem substPart_param (ps : Params) (p : String) (hp : partIsParam p = true) :
    substPart ps p = (getParam ps (paramOf p)).getD "" := by
  simp [substPart, hp]

theorem substPart_lit (ps : Params) (p : String) (hp : partIsParam p = false) :
    substPart ps p = p := by
  simp [substPart, hp]

theorem substLoop_deleteParam (ps : Params) (n : String) (l : List String)
    (h : n ∉ placeholders l) : substLoop (deleteParam ps n) l = substLoop ps l := by
  induction l with
  | nil => rfl
  | cons p rest ih =>
    by_cases hp : p = ""
    · subst hp
      rw [substLoop_cons_empty, substLoop_cons_empty]
      exact ih (by rwa [placeholders_cons_lit _ _ partIsParam_empty] at h)
    · rw [substLoop_cons _ _ _ hp, substLoop_cons _ _ _ hp]
      cases hpar : partIsParam p with
      | false =>
        rw [placeholders_cons_lit _ _ hpar] at h
        rw [substPart_lit _ _ hpar, substPart_lit _ _ hpar, ih h]
      | true =>
        rw [placeholders_cons_param _ _ hpar] at h
        have hne : paramOf p ≠ n := fun he => h (he ▸ List.mem_cons_self _ _)
        have hrest : n ∉ placeholders rest := fun hm => h (List.mem_cons_of_mem _ hm)
        rw [substPart_param _ _ hpar, substPart_param _ _ hpar,
          getParam_deleteParam_ne _ _ _ hne, ih hrest]

/-- Number of occurrences of a parameter name in a list of names. -/
def countOcc (n : String) : List String → Nat
  | [] => 0
  | x :: rest => (if x = n then 1 else 0) + countOcc n rest

theorem countOcc_pos_of_mem {n : String} {l : List String} (h : n ∈ l) :
    1 ≤ countOcc n l := by
  induction l with
  | nil => simp at h
  | cons x rest ih =>
    rcases List.mem_cons.mp h with he | hm
    · subst he
      simp [countOcc]
    · have := ih hm
      simp only [countOcc]
      omega

theorem countOcc_le_cons (n x : String) (l : List String) :
    countOcc n l ≤ countOcc n (x :: l) := by
  simp only [countOcc]
  omega

theorem countOcc_cons_self (n : String) (l : List String) :
    countOcc n (n :: l) = 1 + countOcc n l := by
  simp [countOcc]

theorem find?_congruent (l : List String) (p q : String → Bool)
    (h : ∀ x ∈ l, p x = q x) : l.find? p = l.find? q := by
  induction l with
  | nil => rfl
  | cons x rest ih =>
    have hx := h x (List.mem_cons_self _ _)
    cases hq : q x with
    | true =>
      rw [List.find?_cons_of_pos _ (hx.trans hq), List.find?_cons_of_pos _ hq]
    | false =>
      rw [List.find?_cons_of_neg _ (by simp [hx, hq]), List.find?_cons_of_neg _ (by simp [hq])]
      exact ih (fun y hy => h y (List.mem_cons_of_mem _ hy))

/-- Master lemma for successful walks: when the placeholder names of the
split template are pairwise distinct and each has a binding, the loop
succeeds, produces the segment-wise substitution, and leaves exactly the
entries whose key matches no placeholder. -/
theorem renderLoop_complete : ∀ (parts : List String) (ps : Params),
    (placeholders parts).Nodup →
    (∀ n ∈ placeholders parts, (getParam ps n).isSome) →
    renderLoop ps parts = (Except.ok (substLoop ps parts), dropKeys ps (placeholders parts))
  | [], ps, _, _ => by
    simp [renderLoop, substLoop, placeholders, dropKeys_nil_keys]
  | p :: rest, ps, hnd, hb => by
    by_cases hp : p = ""
    · subst hp
      rw [renderLoop_cons_empty, substLoop_cons_empty,
        placeholders_cons_lit _ _ partIsParam_empty]
      rw [placeholders_cons_lit _ _ partIsParam_empty] at hnd hb
      exact renderLoop_complete rest ps hnd hb
    · cases hpar : partIsParam p with
      | false =>
        rw [placeholders_cons_lit _ _ hpar] at hnd hb
        rw [renderLoop_cons_lit _ _ _ hp hpar, substLoop_cons _ _ _ hp,
          substPart_lit _ _ hpar, placeholders_cons_lit _ _ hpar,
          renderLoop_complete rest ps hnd hb]
        simp [Except.map]
      | true =>
        rw [placeholders_cons_param _ _ hpar] at hnd hb
        have hnd' := (List.nodup_cons.mp hnd).2
        have hmem : paramOf p ∉ placeholders rest := (List.nodup_cons.mp hnd).1
        obtain ⟨v, hv⟩ := Option.isSome_iff_exists.mp (hb _ (List.mem_cons_self _ _))
        have hb' : ∀ n ∈ placeholders rest,
            (getParam (deleteParam ps (paramOf p)) n).isSome := by
          intro n hn
          have hne : n ≠ paramOf p := fun he => hmem (he ▸ hn)
          rw [getParam_deleteParam_ne _ _ _ hne]
          exact hb n (List.mem_cons_of_mem _ hn)
        rw [renderLoop_cons_param _ _ _ hp hpar v hv,
          renderLoop_complete rest (deleteParam ps (paramOf p)) hnd' hb',
          substLoop_deleteParam _ _ _ hmem, dropKeys_deleteParam,
          substLoop_cons _ _ _ hp, substPart_param _ _ hpar, hv,
          placeholders_cons_param _ _ hpar]
        simp [Except.map]

/-- Failure lemma: when some placeholder name of the split template has no
binding, the walk aborts with `RouteParameterNotSet` carrying the name of a
placeholder that is either unbound in the initial map or occurs at least
twice among the placeholders (so that it was consumed before being reached
again). -/
theorem renderLoop_missing : ∀ (parts : List String) (ps : Params),
    (∃ n, n ∈ placeholders parts ∧ getParam ps n = none) →
    ∃ m qs, renderLoop ps parts = (Except.error (PathError.routeParameterNotSet m), qs) ∧
      m ∈ placeholders parts ∧
      (getParam ps m = none ∨ 2 ≤ countOcc m (placeholders parts))
  | [], ps, h => by
    obtain ⟨n, hn, _⟩ := h
    simp [placeholders] at hn
  | p :: rest, ps, h => by
    by_cases hp : p = ""
    · subst hp
      rw [placeholders_cons_lit _ _ partIsParam_empty] at h ⊢
      rw [renderLoop_cons_empty]
      exact renderLoop_missing rest ps h
    · cases hpar : partIsParam p with
      | false =>
        rw [placeholders_cons_lit _ _ hpar] at h ⊢
        obtain ⟨m, qs, herr, hmem, hdisj⟩ := renderLoop_missing rest ps h
        refine ⟨m, qs, ?_, hmem, hdisj⟩
        rw [renderLoop_cons_lit _ _ _ hp hpar, herr]
        simp [Except.map]
      | true =>
        rw [placeholders_cons_param _ _ hpar] at h ⊢
        cases hv : getParam ps (paramOf p) with
        | none =>
          exact ⟨paramOf p, ps, renderLoop_cons_param_missing _ _ _ hp hpar hv,
            List.mem_cons_self _ _, Or.inl hv⟩
        | some v =>
          obtain ⟨n, hn, hnone⟩ := h
          have hne : n ≠ paramOf p := by
            intro he
            rw [he, hv] at hnone
            exact Option.noConfusion hnone
          have hn' : n ∈ placeholders rest := by
            rcases List.mem_cons.mp hn with he | hm
            · exact absurd he hne
            · exact hm
          have hnone' : getParam (deleteParam ps (paramOf p)) n = none := by
            rw [getParam_deleteParam_ne _ _ _ hne]
            exact hnone
          obtain ⟨m, qs, herr, hmem, hdisj⟩ :=
            renderLoop_missing rest (deleteParam ps (paramOf p)) ⟨n, hn', hnone'⟩
          refine ⟨m, qs, ?_, List.mem_cons_of_mem _ hmem, ?_⟩
          · rw [renderLoop_cons_param _ _ _ hp hpar v hv, herr]
            simp [Except.map]
          · rcases hdisj with hmn | hcnt
            · by_cases hmp : m = paramOf p
              · right
                subst hmp
                rw [countOcc_cons_self]
                have := countOcc_pos_of_mem hmem
                omega
              · left
                rw [← getParam_deleteParam_ne ps (paramOf p) m hmp]
                exact hmn
            · right
              exact le_trans hcnt (countOcc_le_cons _ _ _)

/-- First-failure lemma: when the placeholder names are pairwise distinct,
the walk fails exactly at the first placeholder (in template order) whose
name has no binding, carrying that name. -/
theorem renderLoop_firstUnbound : ∀ (parts : List String) (ps : Params) (u : String),
    (placeholders parts).Nodup →
    firstUnbound parts ps = some u →
    ∃ qs, renderLoop ps parts = (Except.error (PathError.routeParameterNotSet u), qs)
  | [], ps, u, _, hfind => by
    simp [firstUnbound, placeholders] at hfind
  | p :: rest, ps, u, hnd, hfind => by
    by_cases hp : p = ""
    · subst hp
      rw [firstUnbound, placeholders_cons_lit _ _ partIsParam_empty] at hfind
      rw [placeholders_cons_lit _ _ partIsParam_empty] at hnd
      rw [renderLoop_cons_empty]
      exact renderLoop_firstUnbound rest ps u hnd hfind
    · cases hpar : partIsParam p with
      | false =>
        rw [firstUnbound, placeholders_cons_lit _ _ hpar] at hfind
        rw [placeholders_cons_lit _ _ hpar] at hnd
        obtain ⟨qs, herr⟩ := renderLoop_firstUnbound rest ps u hnd hfind
        refine ⟨qs, ?_⟩
        rw [renderLoop_cons_lit _ _ _ hp hpar, herr]
        simp [Except.map]
      | true =>
        rw [firstUnbound, placeholders_cons_param _ _ hpar] at hfind
        rw [placeholders_cons_param _ _ hpar] at hnd
        have hknotin := (List.nodup_cons.mp hnd).1
        have hnd' := (List.nodup_cons.mp hnd).2
        cases hv : getParam ps (paramOf p) with
        | none =>
          rw [List.find?_cons_of_pos _ (by simp [hv])] at hfind
          have hu : paramOf p = u := Option.some.inj hfind
          subst hu
          exact ⟨ps, renderLoop_cons_param_missing _ _ _ hp hpar hv⟩
        | some v =>
          rw [List.find?_cons_of_neg _ (by simp [hv])] at hfind
          have hcongr : (placeholders rest).find?
              (fun n => (getParam (deleteParam ps (paramOf p)) n).isNone) =
              (placeholders rest).find? (fun n => (getParam ps n).isNone) := by
            refine find?_congruent _ _ _ (fun x hx => ?_)
            have hne : x ≠ paramOf p := fun he => hknotin (he ▸ hx)
            rw [getParam_deleteParam_ne _ _ _ hne]
          obtain ⟨qs, herr⟩ := renderLoop_firstUnbound rest (deleteParam ps (paramOf p)) u
            hnd' (by rw [firstUnbound, hcongr]; exact hfind)
          refine ⟨qs, ?_⟩
          rw [renderLoop_cons_param _ _ _ hp hpar v hv, herr]
          simp [Except.map]

/-- Duplicate-placeholder lemma: when every placeholder name is bound but
some name occurs in two or more placeholder segments, the walk fails with
`RouteParameterNotSet` carrying a name that occurs at least twice (its
binding having been consumed by the earlier occurrence). -/
theorem renderLoop_duplicate : ∀ (parts : List String) (ps : Params),
    (∀ n ∈ placeholders parts, (getParam ps n).isSome) →
    ¬ (placeholders parts).Nodup →
    ∃ m qs, 2 ≤ countOcc m (placeholders parts) ∧
      renderLoop ps parts = (Except.error (PathError.routeParameterNotSet m), qs)
  | [], ps, _, hnd => absurd List.nodup_nil hnd
  | p :: rest, ps, hb, hnd => by
    by_cases hp : p = ""
    · subst hp
      rw [placeholders_cons_lit _ _ partIsParam_empty] at hb hnd ⊢
      rw [renderLoop_cons_empty]
      exact renderLoop_duplicate rest ps hb hnd
    · cases hpar : partIsParam p with
      | false =>
        rw [placeholders_cons_lit _ _ hpar] at hb hnd ⊢
        obtain ⟨m, qs, hcnt, herr⟩ := renderLoop_duplicate rest ps hb hnd
        refine ⟨m, qs, hcnt, ?_⟩
        rw [renderLoop_cons_lit _ _ _ hp hpar, herr]
        simp [Except.map]
      | true =>
        rw [placeholders_cons_param _ _ hpar] at hb hnd ⊢
        obtain ⟨v, hv⟩ := Option.isSome_iff_exists.mp (hb _ (List.mem_cons_self _ _))
        by_cases hkL : paramOf p ∈ placeholders rest
        · obtain ⟨m, qs, herr, hmem, hdisj⟩ := renderLoop_missing rest
            (deleteParam ps (paramOf p))
            ⟨paramOf p, hkL, getParam_deleteParam_self _ _⟩
          refine ⟨m, qs, ?_, ?_⟩
          · rcases hdisj with hmn | hcnt
            · by_cases hmp : m = paramOf p
              · subst hmp
                rw [countOcc_cons_self]
                have := countOcc_pos_of_mem hkL
                omega
              · exfalso
                rw [getParam_deleteParam_ne _ _ _ hmp] at hmn
                have := hb m (List.mem_cons_of_mem _ hmem)
                rw [hmn] at this
                simp at this
            · exact le_trans hcnt (countOcc_le_cons _ _ _)
          · rw [renderLoop_cons_param _ _ _ hp hpar v hv, herr]
            simp [Except.map]
        · have hnd' : ¬ (placeholders rest).Nodup := fun h =>
            hnd (List.nodup_cons.mpr ⟨hkL, h⟩)
          have hb' : ∀ n ∈ placeholders rest,
              (getParam (deleteParam ps (paramOf p)) n).isSome := by
            intro n hn
            have hne : n ≠ paramOf p := fun he => hkL (he ▸ hn)
            rw [getParam_deleteParam_ne _ _ _ hne]
            exact hb n (List.mem_cons_of_mem _ hn)
          obtain ⟨m, qs, hcnt, herr⟩ :=
            renderLoop_duplicate rest (deleteParam ps (paramOf p)) hb' hnd'
          refine ⟨m, qs, le_trans hcnt (countOcc_le_cons _ _ _), ?_⟩
          rw [renderLoop_cons_param _ _ _ hp hpar v hv, herr]
          simp [Except.map]

/-! Lemmas relating the split, the join and the template string. -/

theorem splitSlash_ne_nil : ∀ cs : List Char, splitSlash cs ≠ []
  | [] => by simp [splitSlash]
  | c :: rest => by
    by_cases hc : c = '/'
    · simp [splitSlash, hc]
    · simp only [splitSlash, if_neg hc]
      cases h : splitSlash rest with
      | nil => simp
      | cons s ss => simp

theorem joinSlash_splitSlash : ∀ cs : List Char, joinSlash (splitSlash cs) = String.mk cs
  | [] => rfl
  | c :: rest => by
    by_cases hc : c = '/'
    · subst hc
      have hstep : splitSlash ('/' :: rest) = "" :: splitSlash rest := by
        simp [splitSlash]
      rw [hstep]
      cases h : splitSlash rest with
      | nil => exact absurd h (splitSlash_ne_nil rest)
      | cons s ss =>
        have ih := joinSlash_splitSlash rest
        rw [h] at ih
        show ("" ++ "/" ++ joinSlash (s :: ss) : String) = String.mk ('/' :: rest)
        rw [String.empty_append, ih]
        exact String.ext (by rw [String.data_append]; rfl)
    · have hstep := splitSlash_ne_nil rest
      cases h : splitSlash rest with
      | nil => exact absurd h hstep
      | cons s ss =>
        have ih := joinSlash_splitSlash rest
        rw [h] at ih
        have hsplit : splitSlash (c :: rest) = String.mk (c :: s.data) :: ss := by
          simp [splitSlash, hc, h]
        rw [hsplit]
        cases ss with
        | nil =>
          have hs : s.data = rest := by
            have : s = String.mk rest := ih
            rw [this]
          show (String.mk (c :: s.data) : String) = String.mk (c :: rest)
          rw [hs]
        | cons t ts =>
          have ih' : (s ++ "/" ++ joinSlash (t :: ts) : String) = String.mk rest := by
            rw [show (s ++ "/" ++ joinSlash (t :: ts) : String) =
              joinSlash (s :: t :: ts) from rfl]
            exact ih
          show (String.mk (c :: s.data) ++ "/" ++ joinSlash (t :: ts) : String) =
            String.mk (c :: rest)
          apply String.ext
          rw [String.data_append, String.data_append]
          have hdata : s.data ++ ("/" : String).data ++ (joinSlash (t :: ts)).data =
              rest := by
            have h2 : (s ++ "/" ++ joinSlash (t :: ts)).data = rest := by rw [ih']
            rwa [String.data_append, String.data_append] at h2
          show c :: (s.data ++ ("/" : String).data ++ (joinSlash (t :: ts)).data) =
            c :: rest
          rw [hdata]

theorem substLoop_joinSlash : ∀ (ps : Params) (l : List String), "" ∉ l.dropLast →
    substLoop ps l = joinSlash (l.map (substPart ps))
  | ps, [], _ => rfl
  | ps, [p], _ => by
    by_cases hp : p = ""
    · subst hp
      simp [substLoop, joinSlash, substPart, partIsParam]
    · rw [substLoop_cons _ _ _ hp]
      simp [substLoop, joinSlash]
  | ps, p :: q :: rest, h => by
    have hp : p ≠ "" := by
      intro he
      apply h
      rw [he]
      simp [List.dropLast]
    have h' : "" ∉ (q :: rest).dropLast := by
      intro hm
      apply h
      simp [List.dropLast, hm]
    rw [substLoop_cons _ _ _ hp, substLoop_joinSlash ps (q :: rest) h']
    simp [joinSlash, List.map]

theorem map_substPart_id : ∀ (ps : Params) (l : List String), placeholders l = [] →
    l.map (substPart ps) = l
  | ps, [], _ => rfl
  | ps, p :: rest, h => by
    cases hpar : partIsParam p with
    | true =>
      rw [placeholders_cons_param _ _ hpar] at h
      exact absurd h (List.cons_ne_nil _ _)
    | false =>
      rw [placeholders_cons_lit _ _ hpar] at h
      simp [substPart_lit _ _ hpar, map_substPart_id ps rest h]

/-- The full output of a successful canonical-template walk: the initial
slash plus the loop output equals the segment-wise substituted template
joined back with slashes. -/
theorem subst_prefix_slash (ps : Params) (rest : List String) (hrest : rest ≠ [])
    (hshape : "" ∉ rest.dropLast) :
    "/" ++ substLoop ps ("" :: rest) = joinSlash (("" :: rest).map (substPart ps)) := by
  rw [substLoop_cons_empty]
  cases rest with
  | nil => exact absurd rfl hrest
  | cons q qs =>
    rw [substLoop_joinSlash ps (q :: qs) hshape]
    have hempty : substPart ps "" = "" := substPart_lit _ _ partIsParam_empty
    simp [List.map, joinSlash, hempty, String.empty_append]

/-- A route whose split has a leading empty segment and a nonempty tail is
not the empty string. -/
theorem route_ne_empty_of_split {route : String} {rest : List String}
    (hsplit : splitSlash route.data = "" :: rest) (hrest : rest ≠ []) : route ≠ "" := by
  intro he
  subst he
  have h : ([""] : List String) = "" :: rest := hsplit
  injection h with h1 h2
  exact hrest h2.symm

/-! Unfolding lemmas for `pathFull`. -/

theorem pathFull_route_empty (name : String) (ps : Params) :
    pathFull name "" ps = (("", some (PathError.noRouteDefined name)), ps) := by
  simp [pathFull]

theorem pathFull_error (name route : String) (ps qs : Params) (e : PathError)
    (hroute : route ≠ "")
    (h : renderLoop ps (splitSlash route.data) = (Except.error e, qs)) :
    pathFull name route ps = (("", some e), qs) := by
  simp [pathFull, hroute, h]

theorem pathFull_ok_leftover (name route : String) (ps : Params) (s : String)
    (k v : String) (qs : Params) (hroute : route ≠ "")
    (h : renderLoop ps (splitSlash route.data) = (Except.ok s, (k, v) :: qs)) :
    pathFull name route ps = (("", some (PathError.unknownRouteParameter k)), (k, v) :: qs) := by
  simp [pathFull, hroute, h]

theorem pathFull_ok_done (name route : String) (ps : Params) (s : String)
    (hroute : route ≠ "")
    (h : renderLoop ps (splitSlash route.data) = (Except.ok s, [])) :
    pathFull name route ps = (("/" ++ s, none), []) := by
  simp [pathFull, hroute, h]

/-! Lemmas for group prefix accumulation. -/

theorem joinSlash_glue (a b : String) (l : List String) :
    joinSlash ((a ++ "/" ++ b) :: l) = a ++ "/" ++ joinSlash (b :: l) := by
  cases l with
  | nil => simp [joinSlash]
  | cons c cs => simp [joinSlash, String.append_assoc]

theorem nestGroups_basePath : ∀ (l : List String) (g : NamedGroup),
    (nestGroups g l).basePath = joinSlash (g.basePath :: l)
  | [], g => by simp [nestGroups, joinSlash]
  | p :: rest, g => by
    rw [nestGroups, nestGroups_basePath rest (g.NamedGroupNested p)]
    show joinSlash ((g.basePath ++ "/" ++ p) :: rest) = _
    rw [joinSlash_glue]
    rfl

theorem listRead_listWrite : ∀ (cells : List Params) (r : Nat) (ps : Params),
    r < cells.length → listRead (listWrite cells r ps) r = ps
  | [], r, ps, h => by simp at h
  | _ :: _, 0, _, _ => rfl
  | _ :: rest, r + 1, ps, h =>
    listRead_listWrite rest r ps (Nat.lt_of_succ_lt_succ (by simpa using h))

/-! The claims. -/

/-- C1, counterexample to the claim as stated: for the template `a/:id`
(no leading slash) with binding id=3, every placeholder is bound exactly
once, yet `Path` returns `/a/3` and not the template with its placeholder
segment replaced verbatim, which is `a/3` (the output always gets a
leading slash prepended). -/
theorem c1_substitution_counterexample :
    NamedRoute.Path ⟨"n", "a/:id", [("id", "3")]⟩ = ("/a/3", none) ∧
    joinSlash ((splitSlash ("a/:id" : String).data).map (substPart [("id", "3")])) = "a/3" ∧
    ("/a/3" : String) ≠ "a/3" :=
  ⟨by decide, by decide, by decide⟩

/-- C1 (amended to canonical templates): for every template that begins
with a slash and has no empty segment except possibly a trailing one, if
the placeholder names are pairwise distinct and the binding keys are
exactly the placeholder names, `Path` succeeds and returns the template
with each placeholder segment replaced verbatim by its bound value
(wildcard values keeping their embedded slashes): the split segments,
substituted, joined back with slashes. -/
theorem c1_path_substitutes_bindings (name route : String) (ps : Params)
    (rest : List String)
    (hsplit : splitSlash route.data = "" :: rest)
    (hrest : rest ≠ [])
    (hshape : "" ∉ rest.dropLast)
    (hnd : (placeholders (splitSlash route.data)).Nodup)
    (hperm : (ps.map Prod.fst).Perm (placeholders (splitSlash route.data))) :
    NamedRoute.Path ⟨name, route, ps⟩ =
      (joinSlash ((splitSlash route.data).map (substPart ps)), none) := by
  have hroute := route_ne_empty_of_split hsplit hrest
  have hb : ∀ n ∈ placeholders (splitSlash route.data), (getParam ps n).isSome := by
    intro n hn
    rw [getParam_isSome_iff_mem]
    exact hperm.mem_iff.mpr hn
  have hml := renderLoop_complete (splitSlash route.data) ps hnd hb
  have hdrop : dropKeys ps (placeholders (splitSlash route.data)) = [] :=
    dropKeys_eq_nil _ _ (fun k hk => hperm.mem_iff.mp hk)
  rw [hdrop] at hml
  show (pathFull name route ps).1 = _
  rw [pathFull_ok_done name route ps _ hroute hml, hsplit,
    subst_prefix_slash ps rest hrest hshape]

/-- C1 witness: the `/user/:id/item/:item` template with bindings id=3,
item=book renders as `/user/3/item/book`. -/
theorem c1_path_substitutes_bindings_witness :
    NamedRoute.Path ⟨"user-item", "/user/:id/item/:item", [("id", "3"), ("item", "book")]⟩ =
      ("/user/3/item/book", none) := by
  have h := c1_path_substitutes_bindings "user-item" "/user/:id/item/:item"
    [("id", "3"), ("item", "book")] ["user", ":id", "item", ":item"]
    (by decide) (by decide) (by decide) (by decide) (by decide)
  rw [h]
  decide

/-- C2, counterexample to the claim as stated: in `/:id/:id/:x` with only
id bound, the first placeholder with no corresponding binding in the
handle is `:x`, but `Path` reports `RouteParameterNotSet` for `id`: the
first occurrence of `:id` consumes the binding, so the second `:id` fails
before `:x` is reached. -/
theorem c2_missing_binding_counterexample :
    firstUnbound (splitSlash ("/:id/:id/:x" : String).data) [("id", "1")] = some "x" ∧
    NamedRoute.Path ⟨"r", "/:id/:id/:x", [("id", "1")]⟩ =
      ("", some (PathError.routeParameterNotSet "id")) ∧
    PathError.routeParameterNotSet "id" ≠ PathError.routeParameterNotSet "x" :=
  ⟨by decide, by decide, by decide⟩

/-- C2 (amended with pairwise-distinct placeholder names): when the
template's placeholder names are pairwise distinct and some placeholder
has no binding, `Path` fails with `RouteParameterNotSet` carrying the name
of the first such placeholder in template order and returns the empty
string as the path. -/
theorem c2_missing_binding_first (name route : String) (ps : Params) (u : String)
    (hroute : route ≠ "")
    (hnd : (placeholders (splitSlash route.data)).Nodup)
    (hfind : firstUnbound (splitSlash route.data) ps = some u) :
    NamedRoute.Path ⟨name, route, ps⟩ = ("", some (PathError.routeParameterNotSet u)) := by
  obtain ⟨qs, herr⟩ := renderLoop_firstUnbound (splitSlash route.data) ps u hnd hfind
  show (pathFull name route ps).1 = _
  rw [pathFull_error name route ps qs _ hroute herr]

/-- C2 witness: `/user/:id/item/:item` with only id bound fails with
`RouteParameterNotSet item`, the first unbound placeholder. -/
theorem c2_missing_binding_first_witness :
    NamedRoute.Path ⟨"user-item", "/user/:id/item/:item", [("id", "3")]⟩ =
      ("", some (PathError.routeParameterNotSet "item")) :=
  c2_missing_binding_first "user-item" "/user/:id/item/:item" [("id", "3")] "item"
    (by decide) (by decide) (by decide)

/-- C3, counterexample to the claim as stated: in `/:id/:id` with bindings
for id and z, every placeholder of the template has a corresponding
binding and z is an extra key matching no placeholder, yet `Path` fails
with `RouteParameterNotSet id` (the duplicate `:id` consumed the binding),
not with `UnknownRouteParameter`. -/
theorem c3_unused_binding_counterexample :
    (∀ n ∈ placeholders (splitSlash ("/:id/:id" : String).data),
      (getParam [("id", "1"), ("z", "9")] n).isSome) ∧
    ("z" ∈ ([("id", "1"), ("z", "9")] : Params).map Prod.fst ∧
      "z" ∉ placeholders (splitSlash ("/:id/:id" : String).data)) ∧
    NamedRoute.Path ⟨"r", "/:id/:id", [("id", "1"), ("z", "9")]⟩ =
      ("", some (PathError.routeParameterNotSet "id")) ∧
    ¬ ∃ k, NamedRoute.Path ⟨"r", "/:id/:id", [("id", "1"), ("z", "9")]⟩ =
      ("", some (PathError.unknownRouteParameter k)) := by
  refine ⟨by decide, ⟨by decide, by decide⟩, by decide, ?_⟩
  rintro ⟨k, hk⟩
  rw [show NamedRoute.Path ⟨"r", "/:id/:id", [("id", "1"), ("z", "9")]⟩ =
    ("", some (PathError.routeParameterNotSet "id")) by decide] at hk
  simp at hk

/-- C3 (amended with pairwise-distinct placeholder names): when the
placeholder names are pairwise distinct, every placeholder is bound and at
least one binding key matches no placeholder, `Path` fails with
`UnknownRouteParameter` carrying one of the unmatched keys and returns the
empty string; and (precedence, in general) whenever some placeholder is
unbound the failure is `RouteParameterNotSet`, since the leftover check
runs only after the full segment walk. -/
theorem c3_unused_binding :
    (∀ (name route : String) (ps : Params), route ≠ "" →
      (placeholders (splitSlash route.data)).Nodup →
      (∀ n ∈ placeholders (splitSlash route.data), (getParam ps n).isSome) →
      (∃ k, k ∈ ps.map Prod.fst ∧ k ∉ placeholders (splitSlash route.data)) →
      ∃ k, k ∈ ps.map Prod.fst ∧ k ∉ placeholders (splitSlash route.data) ∧
        NamedRoute.Path ⟨name, route, ps⟩ =
          ("", some (PathError.unknownRouteParameter k))) ∧
    (∀ (name route : String) (ps : Params),
      (∃ n, n ∈ placeholders (splitSlash route.data) ∧ getParam ps n = none) →
      ∃ m, NamedRoute.Path ⟨name, route, ps⟩ =
        ("", some (PathError.routeParameterNotSet m))) := by
  constructor
  · intro name route ps hroute hnd hb hextra
    have hml := renderLoop_complete (splitSlash route.data) ps hnd hb
    obtain ⟨k0, hk0mem, hk0not⟩ := hextra
    have hne := dropKeys_ne_nil ps (placeholders (splitSlash route.data)) k0 hk0mem hk0not
    cases hdk : dropKeys ps (placeholders (splitSlash route.data)) with
    | nil => exact absurd hdk hne
    | cons e qs =>
      obtain ⟨k, v⟩ := e
      rw [hdk] at hml
      have hmem := mem_dropKeys ps (placeholders (splitSlash route.data)) (k, v)
        (by rw [hdk]; exact List.mem_cons_self _ _)
      refine ⟨k, List.mem_map.mpr ⟨(k, v), hmem.1, rfl⟩, hmem.2, ?_⟩
      show (pathFull name route ps).1 = _
      rw [pathFull_ok_leftover name route ps _ k v qs hroute hml]
  · intro name route ps hmiss
    have hroute : route ≠ "" := by
      intro he
      subst he
      obtain ⟨n, hn, _⟩ := hmiss
      rw [show splitSlash ("" : String).data = [""] from rfl] at hn
      rw [show placeholders ([""] : List String) = [] from rfl] at hn
      simp at hn
    obtain ⟨m, qs, herr, _, _⟩ := renderLoop_missing (splitSlash route.data) ps hmiss
    refine ⟨m, ?_⟩
    show (pathFull name route ps).1 = _
    rw [pathFull_error name route ps qs _ hroute herr]

/-- C3 witness: `/user/:id` with bindings id=3, item=3 fails with
`UnknownRouteParameter` on the unmatched key item; and with no bindings at
all the missing-placeholder error takes precedence. -/
theorem c3_unused_binding_witness :
    (∃ k, k ∈ ([("id", "3"), ("item", "3")] : Params).map Prod.fst ∧
      k ∉ placeholders (splitSlash ("/user/:id" : String).data) ∧
      NamedRoute.Path ⟨"user", "/user/:id", [("id", "3"), ("item", "3")]⟩ =
        ("", some (PathError.unknownRouteParameter k))) ∧
    (∃ m, NamedRoute.Path ⟨"user", "/user/:id", []⟩ =
      ("", some (PathError.routeParameterNotSet m))) := by
  constructor
  · exact c3_unused_binding.1 "user" "/user/:id" [("id", "3"), ("item", "3")]
      (by decide) (by decide) (by decide) ⟨"item", by decide, by decide⟩
  · exact c3_unused_binding.2 "user" "/user/:id" [] ⟨"id", by decide, by decide⟩

/-- C4: for every name absent from the registry, `Reverse` succeeds (it is
total) and produces a handle with the empty template, and the subsequent
`Path` fails with `NoRouteDefined` carrying exactly the requested name,
returning the empty string as the path. -/
theorem c4_no_route_defined (nr : NamedRouter) (name : String)
    (h : getParam nr.names name = none) :
    (nr.Reverse name).route = "" ∧
    (nr.Reverse name).Path = ("", some (PathError.noRouteDefined name)) := by
  have hrev : nr.Reverse name = ⟨name, "", []⟩ := by
    simp [NamedRouter.Reverse, h]
  rw [hrev]
  refine ⟨rfl, ?_⟩
  show (pathFull name "" []).1 = _
  rw [pathFull_route_empty]

/-- C4 witness: looking up a name that was never registered defers the
failure to render time, which reports `NoRouteDefined missing`. -/
theorem c4_no_route_defined_witness :
    ((New.Get "root" "/").Reverse "missing").route = "" ∧
    ((New.Get "root" "/").Reverse "missing").Path =
      ("", some (PathError.noRouteDefined "missing")) :=
  c4_no_route_defined (New.Get "root" "/") "missing" (by decide)

/-- C5, counterexample to the claim as stated: the template `about` has no
placeholder segment, yet `Path` with zero bindings returns `/about`, not
the template string `about` unchanged. -/
theorem c5_literal_identity_counterexample :
    placeholders (splitSlash ("about" : String).data) = [] ∧
    NamedRoute.Path ⟨"n", "about", []⟩ = ("/about", none) ∧
    ("/about" : String) ≠ "about" :=
  ⟨by decide, by decide, by decide⟩

/-- C5 (amended to canonical templates): for every template that begins
with a slash, has no empty segment except possibly a trailing one, and has
no placeholder segment, `Path` with zero bindings returns exactly the
template string unchanged. -/
theorem c5_literal_template_identity (name route : String) (rest : List String)
    (hsplit : splitSlash route.data = "" :: rest)
    (hrest : rest ≠ []) (hshape : "" ∉ rest.dropLast)
    (hnopl : placeholders (splitSlash route.data) = []) :
    NamedRoute.Path ⟨name, route, []⟩ = (route, none) := by
  have hroute := route_ne_empty_of_split hsplit hrest
  have hml := renderLoop_complete (splitSlash route.data) []
    (by rw [hnopl]; exact List.nodup_nil) (by rw [hnopl]; intro n hn; simp at hn)
  rw [show dropKeys [] (placeholders (splitSlash route.data)) = [] from rfl] at hml
  show (pathFull name route []).1 = _
  rw [pathFull_ok_done name route [] _ hroute hml, hsplit,
    subst_prefix_slash [] rest hrest hshape, ← hsplit,
    map_substPart_id [] _ hnopl, joinSlash_splitSlash]

/-- C5 witness: the placeholder-free templates `/` and `/about/us` render
unchanged (shown for `/about/us`; `/` is checked among the base examples). -/
theorem c5_literal_template_identity_witness :
    NamedRoute.Path ⟨"about", "/about/us", []⟩ = ("/about/us", none) :=
  c5_literal_template_identity "about" "/about/us" ["about", "us"]
    (by decide) (by decide) (by decide) (by decide)

/-- C6: the joiner discipline.  Every successful `Path` output carries the
single leading slash written before the walk; a leading slash on the
template contributes nothing further (so it never produces a doubled
slash); and an empty segment produced by splitting a doubled slash is
skipped together with its separator, leaving the walk unchanged. -/
theorem c6_slash_join_discipline :
    (∀ (nr : NamedRoute) (s : String), nr.Path = (s, none) → ∃ t, s = "/" ++ t) ∧
    (∀ (name route : String) (ps : Params), route ≠ "" →
      NamedRoute.Path ⟨name, "/" ++ route, ps⟩ = NamedRoute.Path ⟨name, route, ps⟩) ∧
    (∀ (ps : Params) (l1 l2 : List String), l2 ≠ [] →
      renderLoop ps (l1 ++ "" :: l2) = renderLoop ps (l1 ++ l2)) := by
  refine ⟨?_, ?_, ?_⟩
  · intro nr s h
    have h' : (pathFull nr.name nr.route nr.parameters).1 = (s, none) := h
    by_cases hroute : nr.route = ""
    · rw [hroute, pathFull_route_empty] at h'
      have hsnd := congrArg Prod.snd h'
      simp at hsnd
    · cases hr : renderLoop nr.parameters (splitSlash nr.route.data) with
      | mk res qs =>
        cases res with
        | error e =>
          rw [pathFull_error _ _ _ qs e hroute hr] at h'
          have := congrArg Prod.snd h'
          simp at this
        | ok str =>
          cases qs with
          | nil =>
            rw [pathFull_ok_done _ _ _ str hroute hr] at h'
            exact ⟨str, ((Prod.ext_iff.mp h').1).symm⟩
          | cons e qs' =>
            obtain ⟨k, v⟩ := e
            rw [pathFull_ok_leftover _ _ _ str k v qs' hroute hr] at h'
            have := congrArg Prod.snd h'
            simp at this
  · intro name route ps hroute
    have hdata : ("/" ++ route).data = '/' :: route.data := by
      rw [String.data_append]
      rfl
    have hne : ("/" ++ route) ≠ "" := by
      intro he
      have hd := congrArg String.data he
      rw [hdata] at hd
      exact List.noConfusion hd
    have hsplit2 : splitSlash (("/" ++ route).data) = "" :: splitSlash route.data := by
      rw [hdata]
      simp [splitSlash]
    show (pathFull name ("/" ++ route) ps).1 = (pathFull name route ps).1
    unfold pathFull
    rw [if_neg hne, if_neg hroute, hsplit2, renderLoop_cons_empty]
  · intro ps l1 l2 hl2
    induction l1 generalizing ps with
    | nil => exact renderLoop_cons_empty ps l2
    | cons p l1' ih =>
      by_cases hp : p = ""
      · subst hp
        rw [List.cons_append, List.cons_append, renderLoop_cons_empty,
          renderLoop_cons_empty]
        exact ih ps
      · have hne1 : l1' ++ "" :: l2 ≠ [] := by simp
        have hne2 : l1' ++ l2 ≠ [] := by simp [hl2]
        cases hpar : partIsParam p with
        | true =>
          cases hv : getParam ps (paramOf p) with
          | none =>
            rw [List.cons_append, List.cons_append,
              renderLoop_cons_param_missing _ _ _ hp hpar hv,
              renderLoop_cons_param_missing _ _ _ hp hpar hv]
          | some v =>
            rw [List.cons_append, List.cons_append,
              renderLoop_cons_param _ _ _ hp hpar v hv,
              renderLoop_cons_param _ _ _ hp hpar v hv,
              ih (deleteParam ps (paramOf p)), if_neg hne1, if_neg hne2]
        | false =>
          rw [List.cons_append, List.cons_append,
            renderLoop_cons_lit _ _ _ hp hpar,
            renderLoop_cons_lit _ _ _ hp hpar, ih ps, if_neg hne1, if_neg hne2]

/-- C6 witness: the successful output `/user/3` starts with the single
leading slash; prepending a slash to `about/us` does not change the
result; the empty segment of a doubled slash contributes nothing. -/
theorem c6_slash_join_discipline_witness :
    (∃ t, ("/user/3" : String) = "/" ++ t) ∧
    NamedRoute.Path ⟨"n", "/" ++ "about/us", []⟩ = NamedRoute.Path ⟨"n", "about/us", []⟩ ∧
    renderLoop [] (["a"] ++ "" :: ["b"]) = renderLoop [] (["a"] ++ ["b"]) := by
  refine ⟨?_, ?_, ?_⟩
  · exact c6_slash_join_discipline.1 ⟨"user", "/user/:id", [("id", "3")]⟩ "/user/3"
      (by decide)
  · exact c6_slash_join_discipline.2.1 "n" "about/us" [] (by decide)
  · exact c6_slash_join_discipline.2.2 [] ["a"] ["b"] (by decide)

/-- C7: registering a name through nested groups stores in the router's
shared registry the absolute template: all group prefixes joined with a
slash, followed by the relative path. -/
theorem c7_group_prefix_composition (nr reg : NamedRouter) (root : String)
    (nested : List String) (name relativePath : String) :
    getParam ((nestGroups (nr.NamedGroup root) nested).Get reg name relativePath).names
      name = some (joinSlash (root :: nested) ++ relativePath) := by
  show getParam (insertParam reg.names name
    ((nestGroups (nr.NamedGroup root) nested).basePath ++ relativePath)) name = _
  rw [nestGroups_basePath]
  show getParam (insertParam reg.names name
    (joinSlash (root :: nested) ++ relativePath)) name = _
  rw [getParam_insertParam_self]

example : getParam (((New.NamedGroup "/api").NamedGroupNested "v1").Get New
    "v1-submit" "/submit").names "v1-submit" = some "/api/v1/submit" := by decide

/-- C8, counterexample to the claim as stated: on the handle for
`/user/:id` with id=3, the first `Path` call returns `/user/3` but drains
the shared parameter map, so the second call on the unmodified handle
fails with `RouteParameterNotSet id`. -/
theorem c8_render_idempotent_counterexample :
    pathTwice ⟨"user", "/user/:id", [("id", "3")]⟩ =
      (("/user/3", none), ("", some (PathError.routeParameterNotSet "id"))) ∧
    (pathTwice ⟨"user", "/user/:id", [("id", "3")]⟩).1 ≠
      (pathTwice ⟨"user", "/user/:id", [("id", "3")]⟩).2 :=
  ⟨by decide, by decide⟩

/-- C8 (amended to placeholder-free templates): when the template has no
placeholder segment the walk consumes no binding, so two consecutive
`Path` calls on the unmodified handle return the same result. -/
theorem c8_render_idempotent_no_placeholders (nr : NamedRoute)
    (h : placeholders (splitSlash nr.route.data) = []) :
    (pathTwice nr).1 = (pathTwice nr).2 := by
  have hunch : (pathFull nr.name nr.route nr.parameters).2 = nr.parameters := by
    by_cases hroute : nr.route = ""
    · rw [hroute, pathFull_route_empty]
    · have hml := renderLoop_complete (splitSlash nr.route.data) nr.parameters
        (by rw [h]; exact List.nodup_nil) (by rw [h]; intro n hn; simp at hn)
      rw [h, dropKeys_nil_keys] at hml
      cases hqs : nr.parameters with
      | nil =>
        rw [hqs] at hml
        rw [pathFull_ok_done _ _ _ _ hroute hml]
      | cons e qs' =>
        obtain ⟨k, v⟩ := e
        rw [hqs] at hml
        rw [pathFull_ok_leftover _ _ _ _ k v qs' hroute hml]
  show (pathFull nr.name nr.route nr.parameters).1 =
    (pathFull nr.name nr.route (pathFull nr.name nr.route nr.parameters).2).1
  rw [hunch]

/-- C8 witness: two renders of the placeholder-free `/about/us` handle
agree. -/
theorem c8_render_idempotent_no_placeholders_witness :
    (pathTwice ⟨"about", "/about/us", []⟩).1 = (pathTwice ⟨"about", "/about/us", []⟩).2 :=
  c8_render_idempotent_no_placeholders ⟨"about", "/about/us", []⟩ (by decide)

/-- C9, counterexample to the claim as stated: `With` returns a handle
holding the same map reference, so a `With` call on the returned handle
changes the binding set observable through the original handle (here from
one entry to two), contradicting value semantics. -/
theorem c9_with_value_semantics_counterexample :
    (NamedRouteRef.With
      (NamedRouteRef.With ⟨[[]]⟩ ⟨"user", "/user/:id", 0⟩ "id" "3").1
      (NamedRouteRef.With ⟨[[]]⟩ ⟨"user", "/user/:id", 0⟩ "id" "3").2 "item" "9").1.read
      (⟨"user", "/user/:id", 0⟩ : NamedRouteRef).parameters ≠
    (NamedRouteRef.With ⟨[[]]⟩ ⟨"user", "/user/:id", 0⟩ "id" "3").1.read
      (⟨"user", "/user/:id", 0⟩ : NamedRouteRef).parameters := by decide

/-- C9 (amended to reference semantics): `With` returns the same handle
(aliasing the same map reference) and updates the shared map in place with
Go map assignment, for which the last write to a repeated key wins. -/
theorem c9_with_reference_semantics (h : ParamHeap) (nr : NamedRouteRef)
    (key value : String) :
    (NamedRouteRef.With h nr key value).2 = nr ∧
    (nr.parameters < h.cells.length →
      ((NamedRouteRef.With h nr key value).1).read nr.parameters =
        insertParam (h.read nr.parameters) key value) ∧
    (∀ (ps : Params) (value2 : String),
      getParam (insertParam (insertParam ps key value) key value2) key = some value2) := by
  refine ⟨rfl, ?_, ?_⟩
  · intro hlt
    exact listRead_listWrite h.cells nr.parameters _ hlt
  · intro ps value2
    exact getParam_insertParam_self _ _ _

/-- C9 witness: on a one-cell heap the returned handle is the original and
the shared cell now holds the binding; inserting id twice keeps the last
value. -/
theorem c9_with_reference_semantics_witness :
    (NamedRouteRef.With ⟨[[]]⟩ ⟨"user", "/user/:id", 0⟩ "id" "3").2 =
      (⟨"user", "/user/:id", 0⟩ : NamedRouteRef) ∧
    (NamedRouteRef.With ⟨[[]]⟩ ⟨"user", "/user/:id", 0⟩ "id" "3").1.read 0 =
      insertParam ((⟨[[]]⟩ : ParamHeap).read 0) "id" "3" ∧
    getParam (insertParam (insertParam [] "id" "3") "id" "4") "id" = some "4" := by
  obtain ⟨h1, h2, h3⟩ :=
    c9_with_reference_semantics ⟨[[]]⟩ ⟨"user", "/user/:id", 0⟩ "id" "3"
  exact ⟨h1, h2 (by decide), h3 [] "4"⟩

/-- C10: when every placeholder name of the template is bound but some
name occurs in two or more placeholder segments, `Path` fails with
`RouteParameterNotSet` carrying a name occurring at least twice, because
substituting its first occurrence deletes the binding before the later
occurrence is processed. -/
theorem c10_duplicate_placeholder (name route : String) (ps : Params)
    (hb : ∀ n ∈ placeholders (splitSlash route.data), (getParam ps n).isSome)
    (hdup : ¬ (placeholders (splitSlash route.data)).Nodup) :
    ∃ m, 2 ≤ countOcc m (placeholders (splitSlash route.data)) ∧
      NamedRoute.Path ⟨name, route, ps⟩ =
        ("", some (PathError.routeParameterNotSet m)) := by
  have hroute : route ≠ "" := by
    intro he
    subst he
    exact hdup (by decide)
  obtain ⟨m, qs, hcnt, herr⟩ := renderLoop_duplicate (splitSlash route.data) ps hb hdup
  refine ⟨m, hcnt, ?_⟩
  show (pathFull name route ps).1 = _
  rw [pathFull_error name route ps qs _ hroute herr]

/-- C10 witness: `/a/:id/b/:id` with id bound fails with
`RouteParameterNotSet` on the duplicated name although its binding was
supplied. -/
theorem c10_duplicate_placeholder_witness :
    ∃ m, 2 ≤ countOcc m (placeholders (splitSlash ("/a/:id/b/:id" : String).data)) ∧
      NamedRoute.Path ⟨"r", "/a/:id/b/:id", [("id", "3")]⟩ =
        ("", some (PathError.routeParameterNotSet m)) :=
  c10_duplicate_placeholder "r" "/a/:id/b/:id" [("id", "3")] (by decide) (by decide)

end NamedRouterModel
